import Mathlib

/-!
# Verification of the loop-agent command/orchestration engine

Shallow embedding of `src/server_render.py` (command parsing, stop-time
resolution, track resolution, session-playlist construction, device
selection, playback activation) together with proofs about the embedded
definitions.

Conventions:
* Python strings are modelled as `List Char` (with `String` wrappers where
  convenient); Python regex scans are implemented directly as left-to-right
  scanners with the same backtracking semantics as the concrete patterns
  used in the source.
* Local-timezone datetimes are modelled as microseconds since an epoch
  (`Nat`), assuming a fixed-offset local timezone (no DST transition inside
  the window), so wall-clock arithmetic and instant comparison coincide.
* The external Spotify client is an oracle: remote reads are functions
  supplied as parameters, remote effects are recorded in a call trace
  (`RCall`), and fallible calls take their outcome from an environment
  record.
-/

set_option linter.unusedVariables false

namespace LoopAgent

/-! ## Character-level utilities (Python semantics) -/

/-- Python's `\s` / `str.strip()` whitespace set (ASCII part). -/
def isPySpace (c : Char) : Bool :=
  c = ' ' || c = '\t' || c = '\n' || c = '\r' || c = '\x0b' || c = '\x0c'

/-- Python `str.strip()` on a character list. -/
def pyStrip (cs : List Char) : List Char :=
  ((cs.dropWhile isPySpace).reverse.dropWhile isPySpace).reverse

/-- Lower-case a character list (ASCII, matching `str.lower()` on the
inputs that occur here). -/
def lowerCs (cs : List Char) : List Char :=
  cs.map Char.toLower

/-- Case-insensitive "starts with" (`re.IGNORECASE` literal match). -/
def startsWithCI (pat cs : List Char) : Bool :=
  List.isPrefixOf (lowerCs pat) (lowerCs cs)

/-- Python word character for `\b`: `[A-Za-z0-9_]` (ASCII part). -/
def isWordChar (c : Char) : Bool :=
  c.isAlphanum || c = '_'

/-- Whether a `\b` word boundary holds before a word character, given the
previous character (`none` = start of string). -/
def boundaryBefore : Option Char → Bool
  | none => true
  | some c => !isWordChar c

/-- The literal `till ` of the stop-time regex. -/
def tillPat : List Char := 't' :: 'i' :: 'l' :: 'l' :: ' ' :: []

/-- The literal `on ` of the device regex. -/
def onPat : List Char := 'o' :: 'n' :: ' ' :: []

/-- The literal ` on ` terminating the lazy stop-time capture. -/
def stopPat : List Char := ' ' :: 'o' :: 'n' :: ' ' :: []

/-! ## Command parser: `parse_cmd`

`parse_cmd` runs three independent regex scans over the raw command:
`re.findall(r'"([^"]+)"', cmd)`, `re.search(r'\btill (.+?)(?: on |$)', cmd, re.I)`
and `re.search(r'\bon (.+)$', cmd, re.I)`. -/

/-- State machine equal to `re.findall(r'"([^"]+)"', cmd)`: `none` means
"outside quotes", `some acc` means "inside a candidate match with the
(reversed) captured characters so far". An immediately-closed pair `""`
fails the `[^"]+` and the scan restarts at the closing quote, exactly as
the backtracking engine does. -/
def findQuotedAux : Option (List Char) → List Char → List (List Char)
  | _, [] => []
  | none, c :: rest =>
    if c = '"' then findQuotedAux (some []) rest else findQuotedAux none rest
  | some acc, c :: rest =>
    if c = '"' then
      if acc.isEmpty then findQuotedAux (some []) rest
      else acc.reverse :: findQuotedAux none rest
    else findQuotedAux (some (c :: acc)) rest

def findQuoted (cs : List Char) : List (List Char) :=
  findQuotedAux none cs

/-- The lazy group of `\btill (.+?)(?: on |$)`: after the literal
`till `, consume at least one non-newline character, then extend one
character at a time (never across a newline) until the remainder starts
with `" on "` (case-insensitive) or the string ends. -/
def tillCaptureAux (acc : List Char) : List Char → Option (List Char)
  | [] => some acc.reverse
  | l@(c :: rest) =>
    if startsWithCI stopPat l then some acc.reverse
    else if c = '\n' then none
    else tillCaptureAux (c :: acc) rest

def tillCapture : List Char → Option (List Char)
  | [] => none
  | c :: rest => if c = '\n' then none else tillCaptureAux [c] rest

/-- `re.search(r'\btill (.+?)(?: on |$)', cmd, re.I)`: scan left to right;
at the first position with a word boundary, the literal `till ` and a
successful lazy capture, return the capture. -/
def searchTill (prev : Option Char) : List Char → Option (List Char)
  | [] => none
  | l@(c :: rest) =>
    if boundaryBefore prev && startsWithCI tillPat l then
      match tillCapture (l.drop 5) with
      | some cap => some cap
      | none => searchTill (some c) rest
    else searchTill (some c) rest

/-- The tail of `\bon (.+)$`: the capture is a non-empty run of
non-newline characters and `$` must follow, i.e. the remainder after the
run is empty or a single final newline. -/
def onCapture (cs : List Char) : Option (List Char) :=
  let pre := cs.takeWhile (fun c => c ≠ '\n')
  let post := cs.dropWhile (fun c => c ≠ '\n')
  if pre.isEmpty then none
  else if post = [] || post = ['\n'] then some pre
  else none

/-- `re.search(r'\bon (.+)$', cmd, re.I)`. -/
def searchOn (prev : Option Char) : List Char → Option (List Char)
  | [] => none
  | l@(c :: rest) =>
    if boundaryBefore prev && startsWithCI onPat l then
      match onCapture (l.drop 3) with
      | some cap => some cap
      | none => searchOn (some c) rest
    else searchOn (some c) rest

/-- Python truthiness of an optional string (`None` and `""` are falsy). -/
def truthyOpt : Option String → Bool
  | none => false
  | some s => s ≠ ""

/-- `x or y` on optional strings, with Python truthiness. -/
def pyOr (a b : Option String) : Option String :=
  if truthyOpt a then a else b

/-- `parse_cmd`: quoted titles, optional stop-time expression (text after
`till`, stripped), optional device hint (text after a `\bon `, stripped).
Raises `ValueError` (modelled as `.error`) when no quoted title exists. -/
def parse_cmd (cmd : String) : Except String (List String × Option String × Option String) :=
  let cs := cmd.toList
  let titles := (findQuoted cs).map List.asString
  if titles.isEmpty then
    .error "Use quotes: play \"Song A\" \"Song B\" in loop till 10 minutes [on iPhone]"
  else
    let until_txt := (searchTill none cs).map (fun l => (pyStrip l).asString)
    let device_name := (searchOn none cs).map (fun l => (pyStrip l).asString)
    .ok (titles, until_txt, device_name)

/-! ## Time resolver: `resolve_until_today`

Datetimes are microseconds since epoch in a fixed-offset local timezone. -/

def usPerMin : Nat := 60000000
def usPerHour : Nat := 60 * usPerMin
def usPerDay : Nat := 24 * usPerHour

/-- Value of a digit string (`int(m.group(1))`). -/
def natOfDigits (ds : List Char) : Nat :=
  ds.foldl (fun n c => 10 * n + (c.toNat - '0'.toNat)) 0

/-- The accepted unit spellings of the duration regex. -/
def durUnits : List (List Char) :=
  [('m':: 'i':: 'n'::[]), ('m':: 'i':: 'n':: 's'::[]),
   ('m':: 'i':: 'n':: 'u':: 't':: 'e'::[]), ('m':: 'i':: 'n':: 'u':: 't':: 'e':: 's'::[]),
   ('h':: 'r'::[]), ('h':: 'o':: 'u':: 'r'::[]), ('h':: 'o':: 'u':: 'r':: 's'::[])]

/-- `re.match(r'^\s*(\d+)\s*(min|mins|minute|minutes|hr|hour|hours)?\s*$', s, re.I)`:
returns the integer and, when present, the lower-cased captured unit.
The match succeeds exactly when, after stripping surrounding whitespace
around a non-empty digit run, the leftover word is empty or one of the
unit spellings. -/
def durMatch (s : String) : Option (Nat × Option (List Char)) :=
  let cs1 := s.toList.dropWhile isPySpace
  let digits := cs1.takeWhile Char.isDigit
  if digits.isEmpty then none
  else
    let rest := (cs1.dropWhile Char.isDigit).dropWhile isPySpace
    let core := (rest.reverse.dropWhile isPySpace).reverse
    if core.isEmpty then some (natOfDigits digits, none)
    else if durUnits.contains (lowerCs core) then some (natOfDigits digits, some (lowerCs core))
    else none

/-- Start of the current calendar day, in μs since epoch. -/
def dayFloor (now : Nat) : Nat := usPerDay * (now / usPerDay)

/-- `now.replace(hour=h, minute=m, second=0, microsecond=0)`. -/
def clockTarget (now h m : Nat) : Nat :=
  dayFloor now + h * usPerHour + m * usPerMin

/-- `resolve_until_today`. `dtp` is the `dateutil.parser.parse` oracle,
giving the hour and minute of the parsed clock time (`none` = the parser
raised, which the source propagates as `InvalidTimeExpression`). `now` is
`datetime.now(tz.tzlocal())` in μs. Python truthiness: both `None` and
`""` take the 2-hour default. -/
def resolve_until_today (dtp : String → Option (Nat × Nat)) (now : Nat)
    (until_text : Option String) : Option Nat :=
  if !truthyOpt until_text then some (now + 2 * usPerHour)
  else
    let txt := until_text.getD ""
    match durMatch txt with
    | some (qty, ounit) =>
      let unit := ounit.getD ('m':: 'i':: 'n':: 'u':: 't':: 'e':: 's'::[])
      some (now +
        (if List.isPrefixOf ('h':: 'r'::[]) unit then qty * usPerHour else qty * usPerMin))
    | none =>
      match dtp txt with
      | none => none
      | some (h, m) =>
        let target := clockTarget now h m
        some (if target ≤ now then target + usPerDay else target)

/-! ## Track resolver: `search_track`, `search_tracks`

`query.split(" - ")` splits on every occurrence of the three-character
separator, left to right, non-overlapping. -/

/-- `str.split(" - ")` on character lists (accumulator holds the current
segment reversed; occurrences are found left to right, non-overlapping). -/
def splitDashAux (acc : List Char) : List Char → List (List Char)
  | c :: d :: e :: rest =>
    if c = ' ' ∧ d = '-' ∧ e = ' ' then acc.reverse :: splitDashAux [] rest
    else splitDashAux (c :: acc) (d :: e :: rest)
  | c :: rest => splitDashAux (c :: acc) rest
  | [] => [acc.reverse]

def splitDash (cs : List Char) : List (List Char) :=
  splitDashAux [] cs

/-- `title, artist = [s.strip() for s in (query.split(" - ") + [""])[:2]]`. -/
def splitQuery (query : String) : String × String :=
  let parts := splitDash query.toList ++ [[]]
  ((pyStrip (parts.headD [])).asString, (pyStrip ((parts.drop 1).headD [])).asString)

/-- The search string `f'track:"{title}"' + (f' artist:"{artist}"' if artist else "")`. -/
def searchQueryOf (query : String) : String :=
  let p := splitQuery query
  "track:\"" ++ p.1 ++ "\"" ++ (if p.2 ≠ "" then " artist:\"" ++ p.2 ++ "\"" else "")

/-- `search_track`: one catalog lookup; `catalog` is the remote search
oracle mapping the built query string to the best-ranked track URI
(`none` = zero results). -/
def search_track (catalog : String → Option String) (query : String) : Option String :=
  catalog (searchQueryOf query)

/-- The `ValueError` message raised on a query with zero results. -/
def notFoundMsg (t : String) : String :=
  "Could not find: " ++ t ++ ". Try \"Title - Artist\"."

/-! ## Remote-call trace

Every remote call the embedded code can issue, plus the playlist
deletion/removal calls the client API offers (`playlist_remove_all_occurrences_of_items`,
`current_user_unfollow_playlist`) which the source never uses — they are
in the vocabulary so that "no rollback call occurs" is a statement about
a vocabulary in which rollback is expressible. -/
inductive RCall
  | searchTrack (q : String)
  | createPlaylist (userId name : String)
  | addItems (pid : String) (items : List String)
  | readPlaylist (pid : String)
  | listDevices
  | transferPlayback (deviceId : String) (forcePlay : Bool)
  | pausePlayback (deviceId : String)
  | startPlayback (deviceId ctx : String)
  | readPlayback
  | seekTrack (deviceId : String)
  | setShuffle (deviceId : String) (v : Bool)
  | setRepeat (deviceId mode : String)
  | removePlaylistItems (pid : String)
  | unfollowPlaylist (pid : String)
  | currentUser
  deriving DecidableEq, Repr

/-- Calls that create or grow a playlist (the "playlist-mutating" calls
of the source). -/
def RCall.mutatesPlaylist : RCall → Bool
  | .createPlaylist _ _ => true
  | .addItems _ _ => true
  | .removePlaylistItems _ => true
  | .unfollowPlaylist _ => true
  | _ => false

/-- Calls that delete from / roll back a playlist. -/
def RCall.rollsBackPlaylist : RCall → Bool
  | .removePlaylistItems _ => true
  | .unfollowPlaylist _ => true
  | _ => false

/-- `search_tracks`: look queries up in order, abort with the
`ValueError` on the first query with zero results. Returns the result
together with the trace of issued lookups. -/
def search_tracks (catalog : String → Option String) :
    List String → Except String (List String) × List RCall
  | [] => (.ok [], [])
  | t :: ts =>
    match search_track catalog t with
    | none => (.error (notFoundMsg t), [.searchTrack (searchQueryOf t)])
    | some uri =>
      let r := search_tracks catalog ts
      (r.1.map (fun us => uri :: us), .searchTrack (searchQueryOf t) :: r.2)

/-! ## Session builder: `fill_playlist_and_wait` -/

/-- The inner `while len(batch) >= 100` flush loop: emits 100-element
chunks of the pending batch while it holds at least 100 items, returning
the remaining batch and the emitted chunks appended to `acc`. `fuel`
bounds the iteration count; since every iteration removes 100 elements,
`batch.length` is always enough fuel. -/
def flushBatchF : Nat → List String → List (List String) →
    List String × List (List String)
  | 0, batch, acc => (batch, acc)
  | f + 1, batch, acc =>
    if 100 ≤ batch.length then
      flushBatchF f (batch.drop 100) (acc ++ [batch.take 100])
    else (batch, acc)

def flushBatch (batch : List String) (acc : List (List String)) :
    List String × List (List String) :=
  flushBatchF batch.length batch acc

/-- The `for _ in range(repeats)` loop of `fill_playlist_and_wait`. -/
def fillLoop (uris : List String) : Nat → List String → List (List String) →
    List String × List (List String)
  | 0, batch, acc => (batch, acc)
  | n + 1, batch, acc =>
    let r := flushBatch (batch ++ uris) acc
    fillLoop uris n r.1 r.2

/-- The full sequence of `playlist_add_items` batches issued by
`fill_playlist_and_wait` (the trailing non-empty batch included). -/
def fillBatches (uris : List String) (repeats : Nat) : List (List String) :=
  let r := fillLoop uris repeats [] []
  if r.1.isEmpty then r.2 else r.2 ++ [r.1]

/-- Trace of `fill_playlist_and_wait`: the insertion batches followed by
`pollCount` consistency reads of the playlist length (the poll loop is
time-bounded and non-fatal; the number of iterations is an environment
parameter). -/
def fill_playlist_and_wait (pid : String) (uris : List String) (repeats pollCount : Nat) :
    List RCall :=
  (fillBatches uris repeats).map (RCall.addItems pid) ++
    (List.replicate pollCount (RCall.readPlaylist pid))

/-! ## Device selector: `find_device` -/

structure Device where
  id : String
  name : String
  is_active : Bool
  deriving DecidableEq, Repr

/-- Normalised name comparison key: `s.strip().lower()`. -/
def nameKey (s : String) : List Char :=
  lowerCs (pyStrip s.toList)

/-- Python `a in b` on character lists (substring containment; the empty
pattern is contained in everything). -/
def listContainsSub (pat : List Char) : List Char → Bool
  | [] => pat.isEmpty
  | l@(_ :: rest) => List.isPrefixOf pat l || listContainsSub pat rest

/-- `find_device`: `preferred_name or os.getenv("DEFAULT_DEVICE_NAME")`,
then empty-list guard, then the exact-match loop, the substring-match
loop, the active-device loop, and `devices[0]`. `defaultName` models the
`DEFAULT_DEVICE_NAME` environment variable (`none` = unset). -/
def find_device (defaultName : Option String) (preferredArg : Option String)
    (devices : List Device) : Option String :=
  let preferred := pyOr preferredArg defaultName
  if devices.isEmpty then none
  else
    let tiers :=
      if truthyOpt preferred then
        let p := nameKey (preferred.getD "")
        match devices.find? (fun d => nameKey d.name = p) with
        | some d => some d.id
        | none =>
          match devices.find? (fun d => listContainsSub p (nameKey d.name)) with
          | some d => some d.id
          | none => none
      else none
    match tiers with
    | some i => some i
    | none =>
      match devices.find? (fun d => d.is_active) with
      | some d => some d.id
      | none => (devices.headD ⟨"", "", false⟩).id |> some

/-- Modelled from the spec (§4.5): the device-selection priority written
directly from the specification's words, for comparison with
`find_device`: (1) exact case-insensitive name match, (2) case-insensitive
substring match, (3) the currently active device, (4) the first device in
listing order; no device when the list is empty. -/
def selectDeviceSpec (pref : Option String) (devices : List Device) : Option String :=
  if devices.isEmpty then none
  else
    let byName : Option String :=
      match pref with
      | some p =>
        match devices.find? (fun d => nameKey d.name = nameKey p) with
        | some d => some d.id
        | none => (devices.find? (fun d => listContainsSub (nameKey p) (nameKey d.name))).map Device.id
      | none => none
    match byName with
    | some i => some i
    | none =>
      match devices.find? (fun d => d.is_active) with
      | some d => some d.id
      | none => (devices.headD ⟨"", "", false⟩).id |> some

/-! ## Playback activator: `ensure_device_active`, `hard_start` -/

/-- `ensure_device_active`: poll the device list once per loop iteration
(the wall-clock 8s bound is abstracted as the finite list `snaps` of
successive snapshots); on the first snapshot containing the device,
issue a non-forced transfer (its failure is swallowed by the source) and
report `true`; report `false` when the budget runs out. -/
def ensure_device_active (snaps : List (List Device)) (device_id : String) :
    Bool × List RCall :=
  match snaps with
  | [] => (false, [])
  | s :: rest =>
    if s.any (fun d => d.id = device_id) then
      (true, [.listDevices, .transferPlayback device_id false])
    else
      let r := ensure_device_active rest device_id
      (r.1, RCall.listDevices :: r.2)

/-- The fields of a `current_playback` payload that `hard_start` reads:
`(pb or {}).get("context").get("uri")`, `(pb or {}).get("progress_ms") or 0`
and the truthiness of `(pb or {}).get("item")`. -/
structure PB where
  contextUri : Option String
  progressMs : Nat
  hasItem : Bool
  deriving DecidableEq, Repr

/-- Outcomes of the fallible remote calls inside one `hard_start`
attempt. `startFails = some e` means `start_playback` raised `e`;
`playbackRead = .error e` means reading `current_playback` raised;
`playbackRead = .ok none` models a `None`/empty payload. -/
structure HSEnv where
  pauseFails : Bool
  transferFails : Bool
  startFails : Option String
  playbackRead : Except String (Option PB)
  seekFails : Bool
  deriving Repr

/-- `hard_start`: pause (failure swallowed), forced transfer (failure
swallowed), start (failure propagates), then verify inside a `try` whose
exceptions produce `False`; a mid-track resume gets a best-effort
seek-to-zero. Returns the verification verdict and the call trace. -/
def hard_start (env : HSEnv) (device_id pl_uri : String) :
    Except String Bool × List RCall :=
  let t0 : List RCall := [.pausePlayback device_id, .transferPlayback device_id true]
  match env.startFails with
  | some e => (.error e, t0 ++ [.startPlayback device_id pl_uri])
  | none =>
    let t1 := t0 ++ [.startPlayback device_id pl_uri, .readPlayback]
    match env.playbackRead with
    | .error _ => (.ok false, t1)
    | .ok pb =>
      let ctxUri := pb.bind PB.contextUri
      let ok := decide (ctxUri = some pl_uri)
      let prog := (pb.map PB.progressMs).getD 0
      let item := (pb.map PB.hasItem).getD false
      if ok && decide (2000 < prog) && item then (.ok ok, t1 ++ [.seekTrack device_id])
      else (.ok ok, t1)

/-- The two-attempt activation of `start_loop_and_schedule_stop`: run
`hard_start`; on a verification failure (`.ok false`), back off and run
the whole sequence exactly once more. Returns the final verdict, the
number of attempts made, and the combined trace. -/
def activate (e1 e2 : HSEnv) (device_id pl_uri : String) :
    Except String Bool × Nat × List RCall :=
  let h1 := hard_start e1 device_id pl_uri
  match h1.1 with
  | .error e => (.error e, 1, h1.2)
  | .ok true => (.ok true, 1, h1.2)
  | .ok false =>
    let h2 := hard_start e2 device_id pl_uri
    (h2.1, 2, h1.2 ++ h2.2)

/-- `create_session_playlist`: `sp.current_user()` then
`sp.user_playlist_create(me["id"], f"Loop Agent ({ts})", public=False, ...)`;
`pid` is the playlist id the remote service returns. -/
def create_session_playlist (userId ts pid : String) : String × List RCall :=
  (pid, [.currentUser, .createPlaylist userId ("Loop Agent (" ++ ts ++ ")")])

/-- Environment for one `start_loop_and_schedule_stop` run: identifiers
returned by the remote side, the device-list snapshots seen by the
activation poll, the outcome records of the two hard-start attempts, and
the `current_playback` read of the best-effort shuffle/repeat block
(`.ok (sDis, rDis)` = the reported `disallows` flags for
`toggling_shuffle` / `toggling_repeat_context`). -/
structure LoopEnv where
  userId : String
  ts : String
  pid : String
  pollCount : Nat
  snaps : List (List Device)
  hs1 : HSEnv
  hs2 : HSEnv
  finalRead : Except String (Bool × Bool)
  shuffleFails : Bool
  repeatFails : Bool
  deriving Repr

/-- The best-effort shuffle/repeat configuration block after a
successful start (everything inside an outer `try ... except: pass`). -/
def bestEffortTail (env : LoopEnv) (device_id : String) : List RCall :=
  match env.finalRead with
  | .error _ => [.readPlayback]
  | .ok flags =>
    [RCall.readPlayback] ++
      (if !flags.1 then [RCall.setShuffle device_id false] else []) ++
      (if !flags.2 then [RCall.setRepeat device_id "context"] else [])

/-- `start_loop_and_schedule_stop`: create the session playlist, fill it
(200 cycles), require the device to become visible, hard-start with one
retry, then best-effort shuffle/repeat and the detached stop timer
(which runs after the request returns and is not part of this trace). -/
def start_loop_and_schedule_stop (env : LoopEnv) (uris : List String)
    (device_id : String) : Except String Unit × List RCall :=
  let c := create_session_playlist env.userId env.ts env.pid
  let fillT := fill_playlist_and_wait c.1 uris 200 env.pollCount
  let pl_uri := "spotify:playlist:" ++ c.1
  let eda := ensure_device_active env.snaps device_id
  let t0 := c.2 ++ fillT ++ eda.2
  if !eda.1 then
    (.error "Target device not active/visible on Spotify Connect.", t0)
  else
    let a := activate env.hs1 env.hs2 device_id pl_uri
    match a.1 with
    | .error e => (.error e, t0 ++ a.2.2)
    | .ok false =>
      (.error "Could not switch playback to the session playlist.", t0 ++ a.2.2)
    | .ok true => (.ok (), t0 ++ a.2.2 ++ bestEffortTail env device_id)

/-! ## The `/play` orchestration -/

/-- The core of the `/play` route: parse, resolve the deadline, resolve
tracks, select a device (`find_device` issues one device listing), then
build and start the session. Success returns `(len(uris), end_at)`. -/
def play_run (dtp : String → Option (Nat × Nat)) (now : Nat)
    (catalog : String → Option String) (defaultName : Option String)
    (devices : List Device) (env : LoopEnv) (command : String) :
    Except String (Nat × Nat) × List RCall :=
  match parse_cmd command with
  | .error e => (.error e, [])
  | .ok parsed =>
    match resolve_until_today dtp now parsed.2.1 with
    | none => (.error "InvalidTimeExpression", [])
    | some end_at =>
      let st := search_tracks catalog parsed.1
      match st.1 with
      | .error e => (.error e, st.2)
      | .ok uris =>
        match find_device defaultName parsed.2.2 devices with
        | none =>
          (.error "No active Spotify device found. Open Spotify on your phone/PC.",
            st.2 ++ [.listDevices])
        | some device_id =>
          let sl := start_loop_and_schedule_stop env uris device_id
          match sl.1 with
          | .error e => (.error e, st.2 ++ [RCall.listDevices] ++ sl.2)
          | .ok _ => (.ok (uris.length, end_at), st.2 ++ [RCall.listDevices] ++ sl.2)

/-- `scanFree pat withB prev xs tail = true` says that scanning `xs`
(followed in the string by `tail`, with `prev` the character before
`xs`) never finds a match of the literal `pat` starting inside `xs`
(`withB` additionally requires a word boundary, as in `\b`-anchored
patterns). -/
def scanFree (pat : List Char) (withB : Bool) : Option Char → List Char → List Char → Bool
  | _, [], _ => true
  | prev, c :: rest, tail =>
    !((!withB || boundaryBefore prev) && startsWithCI pat ((c :: rest) ++ tail)) &&
      scanFree pat withB (some c) rest tail

/-- The character before `tail` when `xs` has been scanned. -/
def lastPrev (prev : Option Char) : List Char → Option Char
  | [] => prev
  | c :: rest => lastPrev (some c) rest

/-- A command with the documented clause order: `play "T" till E on D`. -/
def cmdTillOn (T E D : List Char) : List Char :=
  'p' :: 'l' :: 'a' :: 'y' :: ' ' :: '"' ::
    (T ++ '"' :: ' ' :: 't' :: 'i' :: 'l' :: 'l' :: ' ' ::
      (E ++ ' ' :: 'o' :: 'n' :: ' ' :: D))

/-- A command with the clauses in the opposite order: `play "T" on D till E`. -/
def cmdOnTill (T E D : List Char) : List Char :=
  'p' :: 'l' :: 'a' :: 'y' :: ' ' :: '"' ::
    (T ++ '"' :: ' ' :: 'o' :: 'n' :: ' ' ::
      (D ++ ' ' :: 't' :: 'i' :: 'l' :: 'l' :: ' ' :: E))

/-- No ` - ` separator occurs in `cs` (sliding windows anchored at every
position; passing `x ++ [' ']` additionally rules out the straddle of an
`x` ending in `" -"` into a following separator). -/
def noSepIn : List Char → Bool
  | [] => true
  | c :: rest =>
    !(decide (c = ' ') && List.isPrefixOf ('-' :: ' ' :: []) rest) && noSepIn rest

/-- Hour-of-day of a timestamp (fixed-offset local timezone model). -/
def nowHour (now : Nat) : Nat := (now % usPerDay) / usPerHour

/-- Minute-of-hour of a timestamp. -/
def nowMinute (now : Nat) : Nat := (now % usPerHour) / usPerMin

/-- Whether a stop-time expression is a duration with quantity zero
(the one accepted input whose resolved deadline is not after `now`). -/
def zeroDuration : Option String → Bool
  | none => false
  | some txt =>
    match durMatch txt with
    | some (0, _) => true
    | _ => false

/-! ## Helper lemmas -/

/-- The effective preferred device name: the hint when truthy, else the
`DEFAULT_DEVICE_NAME` value when truthy, else nothing. -/
def effectivePreference (defaultName preferredArg : Option String) : Option String :=
  let p := pyOr preferredArg defaultName
  if truthyOpt p then p else none

theorem find_device_eq_spec (defaultName preferredArg : Option String)
    (devices : List Device) :
    find_device defaultName preferredArg devices =
      selectDeviceSpec (effectivePreference defaultName preferredArg) devices := by
  by_cases ht : truthyOpt (pyOr preferredArg defaultName)
  · obtain ⟨p, hp⟩ : ∃ p, pyOr preferredArg defaultName = some p := by
      cases h : pyOr preferredArg defaultName
      · rw [h] at ht; simp [truthyOpt] at ht
      · exact ⟨_, rfl⟩
    have htp : truthyOpt (some p) = true := by rw [← hp]; exact ht
    simp only [find_device, selectDeviceSpec, effectivePreference, hp, ht, if_true]
    by_cases hd : devices.isEmpty
    · simp [hd]
    · simp only [hd, if_false, Option.getD_some]
      cases hf : devices.find? (fun d => nameKey d.name = nameKey p)
      · cases hg : devices.find? (fun d => listContainsSub (nameKey p) (nameKey d.name)) <;>
          simp [hf, hg, htp]
      · simp [hf, htp]
  · simp only [find_device, selectDeviceSpec, effectivePreference, ht, if_false]
    by_cases hd : devices.isEmpty <;> simp [hd]

theorem search_tracks_first_failure (catalog : String → Option String)
    (pre post : List String) (t : String)
    (hpre : ∀ q ∈ pre, (search_track catalog q).isSome)
    (ht : search_track catalog t = none) :
    search_tracks catalog (pre ++ t :: post) =
      (.error (notFoundMsg t),
        (pre ++ [t]).map (fun q => RCall.searchTrack (searchQueryOf q))) := by
  induction pre with
  | nil =>
    have hcat : catalog (searchQueryOf t) = none := ht
    simp [search_tracks, search_track, hcat]
  | cons q pre' ih =>
    obtain ⟨uri, huri⟩ : ∃ uri, search_track catalog q = some uri := by
      have h := hpre q (by simp)
      cases hq : search_track catalog q
      · rw [hq] at h; simp at h
      · exact ⟨_, rfl⟩
    have ih' := ih (fun q' hq' => hpre q' (by simp [hq']))
    rw [List.cons_append]
    simp only [search_tracks]
    rw [huri, ih']
    simp [Except.map]

theorem flushBatchF_join (f : Nat) (batch : List String) (acc : List (List String)) :
    ((flushBatchF f batch acc).2).join ++ (flushBatchF f batch acc).1 =
      acc.join ++ batch := by
  induction f generalizing batch acc with
  | zero => simp [flushBatchF]
  | succ f ih =>
    simp only [flushBatchF]
    split
    · rw [ih]
      simp [List.append_assoc]
    · rfl

theorem flushBatchF_sizes (f : Nat) (batch : List String) (acc : List (List String))
    (hacc : ∀ c ∈ acc, c.length ≤ 100) :
    ∀ c ∈ (flushBatchF f batch acc).2, c.length ≤ 100 := by
  induction f generalizing batch acc with
  | zero => simpa [flushBatchF] using hacc
  | succ f ih =>
    simp only [flushBatchF]
    split
    · refine ih _ _ (fun c hc => ?_)
      rcases List.mem_append.1 hc with h | h
      · exact hacc c h
      · simp at h
        simp [h, List.length_take]
    · exact hacc

theorem flushBatchF_small (f : Nat) (batch : List String) (acc : List (List String))
    (hf : batch.length ≤ f) : (flushBatchF f batch acc).1.length < 100 := by
  induction f generalizing batch acc with
  | zero =>
    show batch.length < 100
    omega
  | succ f ih =>
    simp only [flushBatchF]
    split
    · exact ih _ _ (by simp; omega)
    · show batch.length < 100
      omega

theorem fillLoop_join (uris : List String) (n : Nat) (batch : List String)
    (acc : List (List String)) :
    ((fillLoop uris n batch acc).2).join ++ (fillLoop uris n batch acc).1 =
      acc.join ++ batch ++ (List.replicate n uris).join := by
  induction n generalizing batch acc with
  | zero => simp [fillLoop]
  | succ n ih =>
    simp only [fillLoop]
    rw [ih]
    have h := flushBatchF_join (batch ++ uris).length (batch ++ uris) acc
    simp only [flushBatch] at *
    rw [List.replicate_succ]
    simp only [List.join_cons]
    rw [← List.append_assoc, h]
    simp [List.append_assoc]

theorem fillLoop_sizes (uris : List String) (n : Nat) (batch : List String)
    (acc : List (List String)) (hacc : ∀ c ∈ acc, c.length ≤ 100) :
    ∀ c ∈ (fillLoop uris n batch acc).2, c.length ≤ 100 := by
  induction n generalizing batch acc with
  | zero => simpa [fillLoop] using hacc
  | succ n ih =>
    simp only [fillLoop]
    exact ih _ _ (flushBatchF_sizes _ _ _ hacc)

theorem fillLoop_small (uris : List String) (n : Nat) (batch : List String)
    (acc : List (List String)) (hb : batch.length < 100) :
    (fillLoop uris n batch acc).1.length < 100 := by
  induction n generalizing batch acc with
  | zero => simpa [fillLoop]
  | succ n ih =>
    simp only [fillLoop]
    exact ih _ _ (flushBatchF_small _ _ _ (Nat.le_refl _))

theorem join_replicate_length (n : Nat) (l : List String) :
    ((List.replicate n l).join).length = n * l.length := by
  induction n with
  | zero => simp
  | succ n ih => simp [List.replicate_succ, ih, Nat.succ_mul, Nat.add_comm]

theorem fillBatches_join (uris : List String) (repeats : Nat) :
    (fillBatches uris repeats).join = (List.replicate repeats uris).join := by
  have h := fillLoop_join uris repeats [] []
  simp only [fillBatches]
  split
  · rename_i hemp
    have : (fillLoop uris repeats [] []).1 = [] := by
      simpa [List.isEmpty_iff] using hemp
    rw [this] at h
    simpa using h
  · simpa using h

theorem fillBatches_sizes (uris : List String) (repeats : Nat) :
    ∀ b ∈ fillBatches uris repeats, b.length ≤ 100 := by
  intro b hb
  simp only [fillBatches] at hb
  split at hb
  · exact fillLoop_sizes uris repeats [] [] (by simp) b hb
  · rcases List.mem_append.1 hb with h | h
    · exact fillLoop_sizes uris repeats [] [] (by simp) b h
    · simp at h
      subst h
      exact Nat.le_of_lt (fillLoop_small uris repeats [] [] (by simp))

/-! ### Regex-scan lemmas (for the clause-order theorem) -/

theorem lowerCs_append (a b : List Char) : lowerCs (a ++ b) = lowerCs a ++ lowerCs b := by
  simp [lowerCs]

theorem lowerCs_length (a : List Char) : (lowerCs a).length = a.length := by
  simp [lowerCs]

theorem startsWithCI_self_append (pat t : List Char) :
    startsWithCI pat (pat ++ t) = true := by
  simp only [startsWithCI, lowerCs_append]
  rw [List.isPrefixOf_iff_prefix]
  exact List.prefix_append _ _

theorem startsWithCI_mono (pat xs t : List Char) (h : startsWithCI pat xs = true) :
    startsWithCI pat (xs ++ t) = true := by
  simp only [startsWithCI, lowerCs_append] at h ⊢
  rw [List.isPrefixOf_iff_prefix] at h ⊢
  exact h.trans (List.prefix_append _ _)

theorem startsWithCI_cons_false (p : Char) (ps : List Char) (c : Char) (rest : List Char)
    (h : Char.toLower c ≠ Char.toLower p) :
    startsWithCI (p :: ps) (c :: rest) = false := by
  have hbeq : (Char.toLower p == Char.toLower c) = false := by
    rw [beq_eq_false_iff_ne]
    exact fun hx => h hx.symm
  simp [startsWithCI, lowerCs, List.isPrefixOf, hbeq]

theorem startsWithCI_eq_of_take (pat l1 l2 : List Char)
    (h : l1.take pat.length = l2.take pat.length) :
    startsWithCI pat l1 = startsWithCI pat l2 := by
  have e1 : (lowerCs l1).take (lowerCs pat).length = (lowerCs l2).take (lowerCs pat).length := by
    rw [lowerCs_length]
    simp only [lowerCs, ← List.map_take, h]
  have key : ∀ m1 m2 : List Char, m1.take (lowerCs pat).length = m2.take (lowerCs pat).length →
      List.isPrefixOf (lowerCs pat) m1 = true → List.isPrefixOf (lowerCs pat) m2 = true := by
    intro m1 m2 hm hp
    rw [List.isPrefixOf_iff_prefix, List.prefix_iff_eq_take] at hp
    rw [List.isPrefixOf_iff_prefix, List.prefix_iff_eq_take]
    rw [← hm]
    exact hp
  simp only [startsWithCI]
  cases hp : List.isPrefixOf (lowerCs pat) (lowerCs l1) <;>
    cases hq : List.isPrefixOf (lowerCs pat) (lowerCs l2) <;> try rfl
  · exact absurd (key _ _ e1.symm hq) (by simp [hp])
  · exact absurd (key _ _ e1 hp) (by simp [hq])

theorem startsWithCI_append_take (pat w t1 t2 : List Char) (hw : w ≠ [])
    (ht : t1.take (pat.length - 1) = t2.take (pat.length - 1)) :
    startsWithCI pat (w ++ t1) = startsWithCI pat (w ++ t2) := by
  apply startsWithCI_eq_of_take
  rw [List.take_append_eq_append_take, List.take_append_eq_append_take]
  congr 1
  have hw1 : 1 ≤ w.length := by
    cases w
    · exact absurd rfl hw
    · simp
  have hle : pat.length - w.length ≤ pat.length - 1 := by omega
  calc t1.take (pat.length - w.length)
      = (t1.take (pat.length - 1)).take (pat.length - w.length) := by
        rw [List.take_take, Nat.min_eq_left hle]
    _ = (t2.take (pat.length - 1)).take (pat.length - w.length) := by rw [ht]
    _ = t2.take (pat.length - w.length) := by rw [List.take_take, Nat.min_eq_left hle]

theorem startsWithCI_barrier_false (pat : List Char) (b : Char)
    (hb : Char.toLower b ∉ lowerCs pat) (w t : List Char)
    (hlen : w.length + 1 < pat.length) :
    startsWithCI pat (w ++ b :: t) = false := by
  cases hsw : startsWithCI pat (w ++ b :: t)
  · rfl
  · exfalso
    simp only [startsWithCI] at hsw
    rw [List.isPrefixOf_iff_prefix, List.prefix_iff_eq_take] at hsw
    apply hb
    rw [hsw]
    rw [lowerCs_append]
    rw [List.take_append_eq_append_take]
    have hwl : (lowerCs w).length = w.length := lowerCs_length w
    have hpl : (lowerCs pat).length = pat.length := lowerCs_length pat
    have h1 : lowerCs (b :: t) = Char.toLower b :: lowerCs t := rfl
    rw [h1]
    have h2 : 1 ≤ (lowerCs pat).length - (lowerCs w).length := by omega
    obtain ⟨k, hk⟩ : ∃ k, (lowerCs pat).length - (lowerCs w).length = k + 1 :=
      ⟨_, (Nat.succ_pred_eq_of_pos h2).symm⟩
    rw [hk, List.take_succ_cons]
    simp

theorem startsWithCI_barrier (pat : List Char) (b : Char)
    (hb : Char.toLower b ∉ lowerCs pat) (w t : List Char) :
    startsWithCI pat (w ++ b :: t) = startsWithCI pat (w ++ ([b] : List Char)) := by
  by_cases hlen : pat.length ≤ w.length + 1
  · have hsplit : w ++ b :: t = (w ++ [b]) ++ t := by simp
    rw [hsplit]
    apply startsWithCI_eq_of_take
    rw [List.take_append_eq_append_take]
    have h2 : pat.length - (w ++ [b]).length = 0 := by simp; omega
    rw [h2]
    simp
  · rw [startsWithCI_barrier_false pat b hb w t (by omega),
      startsWithCI_barrier_false pat b hb w [] (by omega)]



theorem scanFree_of_head_ne (p : Char) (ps : List Char) (wB : Bool) (xs : List Char)
    (hx : ∀ c ∈ xs, Char.toLower c ≠ Char.toLower p) :
    ∀ prev tail, scanFree (p :: ps) wB prev xs tail = true := by
  induction xs with
  | nil => intro prev tail; rfl
  | cons c rest ih =>
    intro prev tail
    have hsw : startsWithCI (p :: ps) ((c :: rest) ++ tail) = false := by
      rw [List.cons_append]
      exact startsWithCI_cons_false p ps c (rest ++ tail) (hx c (by simp))
    simp only [scanFree, hsw, Bool.and_false, Bool.not_false, Bool.true_and]
    exact ih (fun c' hc' => hx c' (by simp [hc'])) (some c) tail

theorem scanFree_tail_take (pat : List Char) (wB : Bool) (xs : List Char) :
    ∀ prev t1 t2, t1.take (pat.length - 1) = t2.take (pat.length - 1) →
      scanFree pat wB prev xs t1 = scanFree pat wB prev xs t2 := by
  induction xs with
  | nil => intro prev t1 t2 _; rfl
  | cons c rest ih =>
    intro prev t1 t2 ht
    simp only [scanFree]
    rw [startsWithCI_append_take pat (c :: rest) t1 t2 (by simp) ht, ih (some c) t1 t2 ht]

theorem scanFree_tail_barrier (pat : List Char) (wB : Bool) (b : Char)
    (hb : Char.toLower b ∉ lowerCs pat) (xs : List Char) :
    ∀ prev t, scanFree pat wB prev xs (b :: t) = scanFree pat wB prev xs ([b]) := by
  induction xs with
  | nil => intro prev t; rfl
  | cons c rest ih =>
    intro prev t
    simp only [scanFree]
    rw [startsWithCI_barrier pat b hb (c :: rest) t, ih (some c) t]

theorem scanFree_shorten (pat : List Char) (wB : Bool) (xs : List Char) :
    ∀ prev t ext, scanFree pat wB prev xs (t ++ ext) = true →
      scanFree pat wB prev xs t = true := by
  induction xs with
  | nil => intro prev t ext _; rfl
  | cons c rest ih =>
    intro prev t ext h
    simp only [scanFree, Bool.and_eq_true, Bool.not_eq_eq_eq_not, Bool.not_true,
      Bool.and_eq_false_iff] at h ⊢
    obtain ⟨hX, hY⟩ := h
    refine ⟨?_, ih (some c) t ext hY⟩
    rcases hX with hB | hS
    · exact Or.inl hB
    · refine Or.inr ?_
      cases hS2 : startsWithCI pat ((c :: rest) ++ t)
      · rfl
      · exfalso
        have := startsWithCI_mono pat ((c :: rest) ++ t) ext hS2
        rw [List.append_assoc] at this
        rw [this] at hS
        cases hS

theorem searchTill_append (xs : List Char) :
    ∀ prev tail, scanFree tillPat true prev xs tail = true →
      searchTill prev (xs ++ tail) = searchTill (lastPrev prev xs) tail := by
  induction xs with
  | nil => intro prev tail _; rfl
  | cons c rest ih =>
    intro prev tail h
    simp only [scanFree, Bool.and_eq_true, Bool.not_eq_eq_eq_not, Bool.not_true,
      Bool.not_true, Bool.false_or] at h
    obtain ⟨hg, hrec⟩ := h
    rw [List.cons_append]
    simp only [searchTill]
    rw [List.cons_append] at hg
    simp only [hg]
    exact ih (some c) tail hrec

theorem searchOn_append (xs : List Char) :
    ∀ prev tail, scanFree onPat true prev xs tail = true →
      searchOn prev (xs ++ tail) = searchOn (lastPrev prev xs) tail := by
  induction xs with
  | nil => intro prev tail _; rfl
  | cons c rest ih =>
    intro prev tail h
    simp only [scanFree, Bool.and_eq_true, Bool.not_eq_eq_eq_not, Bool.not_true,
      Bool.not_true, Bool.false_or] at h
    obtain ⟨hg, hrec⟩ := h
    rw [List.cons_append]
    simp only [searchOn]
    rw [List.cons_append] at hg
    simp only [hg]
    exact ih (some c) tail hrec

theorem searchTill_fire (prev : Option Char) (rest cap : List Char)
    (hb : boundaryBefore prev = true) (hcap : tillCapture rest = some cap) :
    searchTill prev ('t' :: 'i' :: 'l' :: 'l' :: ' ' :: rest) = some cap := by
  have hsw : startsWithCI tillPat ('t' :: 'i' :: 'l' :: 'l' :: ' ' :: rest) = true :=
    startsWithCI_self_append tillPat rest
  simp only [searchTill, hb, hsw, Bool.and_self, if_true, List.drop_succ_cons,
    List.drop_zero, hcap]

theorem searchOn_fire (prev : Option Char) (rest cap : List Char)
    (hb : boundaryBefore prev = true) (hcap : onCapture rest = some cap) :
    searchOn prev ('o' :: 'n' :: ' ' :: rest) = some cap := by
  have hsw : startsWithCI onPat ('o' :: 'n' :: ' ' :: rest) = true :=
    startsWithCI_self_append onPat rest
  simp only [searchOn, hb, hsw, Bool.and_self, if_true, List.drop_succ_cons,
    List.drop_zero, hcap]

theorem tillCaptureAux_run (xs : List Char) :
    ∀ acc tail (prev : Option Char), scanFree stopPat false prev xs tail = true →
      '\n' ∉ xs → (tail = [] ∨ startsWithCI stopPat tail = true) →
      tillCaptureAux acc (xs ++ tail) = some (acc.reverse ++ xs) := by
  induction xs with
  | nil =>
    intro acc tail _ _ _ hstop
    rcases hstop with rfl | hsw
    · simp [tillCaptureAux]
    · cases tail with
      | nil => simp [tillCaptureAux]
      | cons c r => simp [tillCaptureAux, hsw]
  | cons c rest ih =>
    intro acc tail prev hfree hnl hstop
    simp only [scanFree, Bool.and_eq_true, Bool.not_eq_eq_eq_not, Bool.not_true,
      Bool.not_false, Bool.true_or, Bool.true_and] at hfree
    obtain ⟨hg, hrec⟩ := hfree
    have hc : c ≠ '\n' := fun hcc => hnl (by simp [hcc])
    rw [List.cons_append]
    rw [List.cons_append] at hg
    simp only [tillCaptureAux, hg, if_false, hc, ite_false]
    rw [ih (c :: acc) tail (some c) hrec (fun hmm => hnl (by simp [hmm])) hstop]
    simp

theorem tillCapture_run (x : Char) (xs tail : List Char) (hx : x ≠ '\n')
    (hfree : scanFree stopPat false none xs tail = true) (hnl : '\n' ∉ xs)
    (hstop : tail = [] ∨ startsWithCI stopPat tail = true) :
    tillCapture ((x :: xs) ++ tail) = some (x :: xs) := by
  rw [List.cons_append]
  simp only [tillCapture, hx, ite_false]
  rw [tillCaptureAux_run xs [x] tail none hfree hnl hstop]
  simp

theorem onCapture_full (cs : List Char) (h : cs ≠ []) (hnl : '\n' ∉ cs) :
    onCapture cs = some cs := by
  have hall : ∀ x ∈ cs, x ≠ '\n' := fun x hx hxx => hnl (hxx ▸ hx)
  have hd : cs.dropWhile (fun c => c ≠ '\n') = [] := by
    rw [List.dropWhile_eq_nil_iff]
    intro x hx
    simpa using hall x hx
  have ht : cs.takeWhile (fun c => c ≠ '\n') = cs := by
    have hh : cs.takeWhile (fun c => c ≠ '\n') ++ cs.dropWhile (fun c => c ≠ '\n') = cs :=
      List.takeWhile_append_dropWhile _ _
    rw [hd, List.append_nil] at hh
    exact hh
  simp only [onCapture]
  rw [ht, hd]
  simp [h]

theorem findQuotedAux_none_append (xs : List Char) :
    ∀ tail, '"' ∉ xs → findQuotedAux none (xs ++ tail) = findQuotedAux none tail := by
  induction xs with
  | nil => intro tail _; rfl
  | cons c rest ih =>
    intro tail h
    have hc : ¬(c = '"') := fun hcc => h (by simp [hcc])
    rw [List.cons_append]
    simp only [findQuotedAux, hc, ite_false]
    exact ih tail (fun hm => h (by simp [hm]))

theorem findQuotedAux_acc_append (xs : List Char) :
    ∀ acc tail, '"' ∉ xs →
      findQuotedAux (some acc) (xs ++ tail) =
        findQuotedAux (some (xs.reverse ++ acc)) tail := by
  induction xs with
  | nil => intro acc tail _; simp
  | cons c rest ih =>
    intro acc tail h
    have hc : ¬(c = '"') := fun hcc => h (by simp [hcc])
    rw [List.cons_append]
    simp only [findQuotedAux, hc, ite_false]
    rw [ih (c :: acc) tail (fun hm => h (by simp [hm]))]
    simp

theorem findQuotedAux_none_noquote (xs : List Char) (h : '"' ∉ xs) :
    findQuotedAux none xs = [] := by
  have hh := findQuotedAux_none_append xs [] h
  rw [List.append_nil] at hh
  exact hh



theorem scanFree_till_of_no_t (xs : List Char)
    (hx : ∀ c ∈ xs, Char.toLower c ≠ 't') (wB : Bool) :
    ∀ prev tail, scanFree tillPat wB prev xs tail = true :=
  scanFree_of_head_ne 't' ('i' :: 'l' :: 'l' :: ' ' :: []) wB xs hx

theorem scanFree_on_of_no_o (xs : List Char)
    (hx : ∀ c ∈ xs, Char.toLower c ≠ 'o') (wB : Bool) :
    ∀ prev tail, scanFree onPat wB prev xs tail = true :=
  scanFree_of_head_ne 'o' ('n' :: ' ' :: []) wB xs hx

theorem findQuoted_cmd (T rest : List Char) (hT1 : T ≠ []) (hT2 : '"' ∉ T)
    (hrest : '"' ∉ rest) :
    findQuoted ('p' :: 'l' :: 'a' :: 'y' :: ' ' :: '"' :: (T ++ '"' :: rest)) = [T] := by
  have h1 : findQuoted ('p' :: 'l' :: 'a' :: 'y' :: ' ' :: '"' :: (T ++ '"' :: rest)) =
      findQuotedAux (some []) (T ++ '"' :: rest) := rfl
  rw [h1, findQuotedAux_acc_append T [] ('"' :: rest) hT2]
  have hne : (T.reverse ++ ([] : List Char)).isEmpty = false := by
    simp [hT1]
  simp [findQuotedAux, hne, findQuotedAux_none_noquote rest hrest]
  exact fun h => absurd h hT1

theorem searchTill_cmdTillOn (T E D : List Char)
    (hTtill : scanFree tillPat true (some '"') T ['"'] = true)
    (hE1 : E ≠ []) (hE3 : '\n' ∉ E)
    (hEstop : scanFree stopPat false none E.tail (' ' :: 'o' :: 'n' :: []) = true) :
    searchTill none (cmdTillOn T E D) = some E := by
  obtain ⟨e0, E', rfl⟩ : ∃ e0 E', E = e0 :: E' := by
    cases E with
    | nil => exact absurd rfl hE1
    | cons a b => exact ⟨a, b, rfl⟩
  rw [show cmdTillOn T (e0 :: E') D =
    ('p' :: 'l' :: 'a' :: 'y' :: ' ' :: '"' :: []) ++
      (T ++ '"' :: ' ' :: 't' :: 'i' :: 'l' :: 'l' :: ' ' ::
        ((e0 :: E') ++ ' ' :: 'o' :: 'n' :: ' ' :: D)) from rfl]
  rw [searchTill_append ('p' :: 'l' :: 'a' :: 'y' :: ' ' :: '"' :: []) none _
    (scanFree_till_of_no_t _ (by decide) true none _)]
  rw [show lastPrev none ('p' :: 'l' :: 'a' :: 'y' :: ' ' :: '"' :: []) = some '"' from rfl]
  have hfreeT : scanFree tillPat true (some '"') T
      ('"' :: ' ' :: 't' :: 'i' :: 'l' :: 'l' :: ' ' ::
        ((e0 :: E') ++ ' ' :: 'o' :: 'n' :: ' ' :: D)) = true := by
    rw [scanFree_tail_barrier tillPat true '"' (by decide) T (some '"') _]
    exact hTtill
  rw [searchTill_append T (some '"') _ hfreeT]
  rw [show ('"' :: ' ' :: 't' :: 'i' :: 'l' :: 'l' :: ' ' ::
      ((e0 :: E') ++ ' ' :: 'o' :: 'n' :: ' ' :: D) : List Char) =
    ('"' :: ' ' :: []) ++ ('t' :: 'i' :: 'l' :: 'l' :: ' ' ::
      ((e0 :: E') ++ ' ' :: 'o' :: 'n' :: ' ' :: D)) from rfl]
  rw [searchTill_append ('"' :: ' ' :: []) _ _
    (scanFree_till_of_no_t _ (by decide) true _ _)]
  rw [show lastPrev (lastPrev (some '"') T) ('"' :: ' ' :: []) = some ' ' from rfl]
  have hfreeE : scanFree stopPat false none E' (' ' :: 'o' :: 'n' :: ' ' :: D) = true := by
    rw [scanFree_tail_take stopPat false E' none (' ' :: 'o' :: 'n' :: ' ' :: D)
      (' ' :: 'o' :: 'n' :: []) rfl]
    exact hEstop
  have hcap : tillCapture ((e0 :: E') ++ ' ' :: 'o' :: 'n' :: ' ' :: D) = some (e0 :: E') :=
    tillCapture_run e0 E' (' ' :: 'o' :: 'n' :: ' ' :: D)
      (fun h => hE3 (by simp [h])) hfreeE (fun h => hE3 (by simp [h]))
      (Or.inr (startsWithCI_self_append stopPat D))
  exact searchTill_fire (some ' ') _ _ (by decide) hcap

theorem searchOn_cmdTillOn (T E D : List Char)
    (hTon : scanFree onPat true (some '"') T ['"'] = true)
    (hEon : scanFree onPat true (some ' ') E (' ' :: 'o' :: []) = true)
    (hD1 : D ≠ []) (hD3 : '\n' ∉ D) :
    searchOn none (cmdTillOn T E D) = some D := by
  rw [show cmdTillOn T E D =
    ('p' :: 'l' :: 'a' :: 'y' :: ' ' :: '"' :: []) ++
      (T ++ '"' :: ' ' :: 't' :: 'i' :: 'l' :: 'l' :: ' ' ::
        (E ++ ' ' :: 'o' :: 'n' :: ' ' :: D)) from rfl]
  rw [searchOn_append ('p' :: 'l' :: 'a' :: 'y' :: ' ' :: '"' :: []) none _
    (scanFree_on_of_no_o _ (by decide) true none _)]
  rw [show lastPrev none ('p' :: 'l' :: 'a' :: 'y' :: ' ' :: '"' :: []) = some '"' from rfl]
  have hfreeT : scanFree onPat true (some '"') T
      ('"' :: ' ' :: 't' :: 'i' :: 'l' :: 'l' :: ' ' ::
        (E ++ ' ' :: 'o' :: 'n' :: ' ' :: D)) = true := by
    rw [scanFree_tail_barrier onPat true '"' (by decide) T (some '"') _]
    exact hTon
  rw [searchOn_append T (some '"') _ hfreeT]
  rw [show ('"' :: ' ' :: 't' :: 'i' :: 'l' :: 'l' :: ' ' ::
      (E ++ ' ' :: 'o' :: 'n' :: ' ' :: D) : List Char) =
    ('"' :: ' ' :: 't' :: 'i' :: 'l' :: 'l' :: ' ' :: []) ++
      (E ++ ' ' :: 'o' :: 'n' :: ' ' :: D) from rfl]
  rw [searchOn_append ('"' :: ' ' :: 't' :: 'i' :: 'l' :: 'l' :: ' ' :: []) _ _
    (scanFree_on_of_no_o _ (by decide) true _ _)]
  rw [show lastPrev (lastPrev (some '"') T)
    ('"' :: ' ' :: 't' :: 'i' :: 'l' :: 'l' :: ' ' :: []) = some ' ' from rfl]
  have hfreeE : scanFree onPat true (some ' ') E (' ' :: 'o' :: 'n' :: ' ' :: D) = true := by
    rw [scanFree_tail_take onPat true E (some ' ') (' ' :: 'o' :: 'n' :: ' ' :: D)
      (' ' :: 'o' :: []) rfl]
    exact hEon
  rw [searchOn_append E (some ' ') _ hfreeE]
  rw [show (' ' :: 'o' :: 'n' :: ' ' :: D : List Char) =
    (' ' :: []) ++ ('o' :: 'n' :: ' ' :: D) from rfl]
  rw [searchOn_append (' ' :: []) _ _ (scanFree_on_of_no_o _ (by decide) true _ _)]
  rw [show lastPrev (lastPrev (some ' ') E) (' ' :: []) = some ' ' from rfl]
  exact searchOn_fire (some ' ') D D (by decide) (onCapture_full D hD1 hD3)

theorem searchTill_cmdOnTill (T E D : List Char)
    (hTtill : scanFree tillPat true (some '"') T ['"'] = true)
    (hE1 : E ≠ []) (hE3 : '\n' ∉ E)
    (hEstop : scanFree stopPat false none E.tail (' ' :: 'o' :: 'n' :: []) = true)
    (hDtill : scanFree tillPat true (some ' ') D (' ' :: 't' :: 'i' :: 'l' :: []) = true) :
    searchTill none (cmdOnTill T E D) = some E := by
  obtain ⟨e0, E', rfl⟩ : ∃ e0 E', E = e0 :: E' := by
    cases E with
    | nil => exact absurd rfl hE1
    | cons a b => exact ⟨a, b, rfl⟩
  rw [show cmdOnTill T (e0 :: E') D =
    ('p' :: 'l' :: 'a' :: 'y' :: ' ' :: '"' :: []) ++
      (T ++ '"' :: ' ' :: 'o' :: 'n' :: ' ' ::
        (D ++ ' ' :: 't' :: 'i' :: 'l' :: 'l' :: ' ' :: (e0 :: E'))) from rfl]
  rw [searchTill_append ('p' :: 'l' :: 'a' :: 'y' :: ' ' :: '"' :: []) none _
    (scanFree_till_of_no_t _ (by decide) true none _)]
  rw [show lastPrev none ('p' :: 'l' :: 'a' :: 'y' :: ' ' :: '"' :: []) = some '"' from rfl]
  have hfreeT : scanFree tillPat true (some '"') T
      ('"' :: ' ' :: 'o' :: 'n' :: ' ' ::
        (D ++ ' ' :: 't' :: 'i' :: 'l' :: 'l' :: ' ' :: (e0 :: E'))) = true := by
    rw [scanFree_tail_barrier tillPat true '"' (by decide) T (some '"') _]
    exact hTtill
  rw [searchTill_append T (some '"') _ hfreeT]
  rw [show ('"' :: ' ' :: 'o' :: 'n' :: ' ' ::
      (D ++ ' ' :: 't' :: 'i' :: 'l' :: 'l' :: ' ' :: (e0 :: E')) : List Char) =
    ('"' :: ' ' :: 'o' :: 'n' :: ' ' :: []) ++
      (D ++ ' ' :: 't' :: 'i' :: 'l' :: 'l' :: ' ' :: (e0 :: E')) from rfl]
  rw [searchTill_append ('"' :: ' ' :: 'o' :: 'n' :: ' ' :: []) _ _
    (scanFree_till_of_no_t _ (by decide) true _ _)]
  rw [show lastPrev (lastPrev (some '"') T)
    ('"' :: ' ' :: 'o' :: 'n' :: ' ' :: []) = some ' ' from rfl]
  have hfreeD : scanFree tillPat true (some ' ') D
      (' ' :: 't' :: 'i' :: 'l' :: 'l' :: ' ' :: (e0 :: E')) = true := by
    rw [scanFree_tail_take tillPat true D (some ' ')
      (' ' :: 't' :: 'i' :: 'l' :: 'l' :: ' ' :: (e0 :: E'))
      (' ' :: 't' :: 'i' :: 'l' :: []) rfl]
    exact hDtill
  rw [searchTill_append D (some ' ') _ hfreeD]
  rw [show (' ' :: 't' :: 'i' :: 'l' :: 'l' :: ' ' :: (e0 :: E') : List Char) =
    (' ' :: []) ++ ('t' :: 'i' :: 'l' :: 'l' :: ' ' :: (e0 :: E')) from rfl]
  rw [searchTill_append (' ' :: []) _ _ (scanFree_till_of_no_t _ (by decide) true _ _)]
  rw [show lastPrev (lastPrev (some ' ') D) (' ' :: []) = some ' ' from rfl]
  have hfreeE : scanFree stopPat false none E' [] = true := by
    refine scanFree_shorten stopPat false E' none [] (' ' :: 'o' :: 'n' :: []) ?_
    exact hEstop
  have hcap0 := tillCapture_run e0 E' [] (fun h => hE3 (by simp [h])) hfreeE
    (fun h => hE3 (by simp [h])) (Or.inl rfl)
  rw [List.append_nil] at hcap0
  exact searchTill_fire (some ' ') _ _ (by decide) hcap0

theorem searchOn_cmdOnTill (T E D : List Char)
    (hTon : scanFree onPat true (some '"') T ['"'] = true)
    (hE3 : '\n' ∉ E) (hD3 : '\n' ∉ D) :
    searchOn none (cmdOnTill T E D) =
      some (D ++ ' ' :: 't' :: 'i' :: 'l' :: 'l' :: ' ' :: E) := by
  rw [show cmdOnTill T E D =
    ('p' :: 'l' :: 'a' :: 'y' :: ' ' :: '"' :: []) ++
      (T ++ '"' :: ' ' :: 'o' :: 'n' :: ' ' ::
        (D ++ ' ' :: 't' :: 'i' :: 'l' :: 'l' :: ' ' :: E)) from rfl]
  rw [searchOn_append ('p' :: 'l' :: 'a' :: 'y' :: ' ' :: '"' :: []) none _
    (scanFree_on_of_no_o _ (by decide) true none _)]
  rw [show lastPrev none ('p' :: 'l' :: 'a' :: 'y' :: ' ' :: '"' :: []) = some '"' from rfl]
  have hfreeT : scanFree onPat true (some '"') T
      ('"' :: ' ' :: 'o' :: 'n' :: ' ' ::
        (D ++ ' ' :: 't' :: 'i' :: 'l' :: 'l' :: ' ' :: E)) = true := by
    rw [scanFree_tail_barrier onPat true '"' (by decide) T (some '"') _]
    exact hTon
  rw [searchOn_append T (some '"') _ hfreeT]
  rw [show ('"' :: ' ' :: 'o' :: 'n' :: ' ' ::
      (D ++ ' ' :: 't' :: 'i' :: 'l' :: 'l' :: ' ' :: E) : List Char) =
    ('"' :: ' ' :: []) ++ ('o' :: 'n' :: ' ' ::
      (D ++ ' ' :: 't' :: 'i' :: 'l' :: 'l' :: ' ' :: E)) from rfl]
  rw [searchOn_append ('"' :: ' ' :: []) _ _
    (scanFree_on_of_no_o _ (by decide) true _ _)]
  rw [show lastPrev (lastPrev (some '"') T) ('"' :: ' ' :: []) = some ' ' from rfl]
  have hne : (D ++ ' ' :: 't' :: 'i' :: 'l' :: 'l' :: ' ' :: E : List Char) ≠ [] := by
    rcases D with _ | ⟨x, xs⟩ <;> simp
  have hnl : '\n' ∉ (D ++ ' ' :: 't' :: 'i' :: 'l' :: 'l' :: ' ' :: E : List Char) := by
    intro h
    rcases List.mem_append.1 h with h1 | h1
    · exact hD3 h1
    · simp at h1
      exact hE3 h1
  exact searchOn_fire (some ' ') _ _ (by decide) (onCapture_full _ hne hnl)


theorem splitDashAux_cons (acc : List Char) (c : Char) (L : List Char)
    (h : (decide (c = ' ') && List.isPrefixOf ('-' :: ' ' :: []) L) = false) :
    splitDashAux acc (c :: L) = splitDashAux (c :: acc) L := by
  rcases L with _ | ⟨d, _ | ⟨e, r⟩⟩
  · rfl
  · rfl
  · have hcd : ¬(c = ' ' ∧ d = '-' ∧ e = ' ') := by
      intro hc
      rw [hc.1, List.isPrefixOf] at h
      simp [hc.2.1, hc.2.2, List.isPrefixOf] at h
    simp [splitDashAux, hcd]

theorem sep_prefix_indep (a' tail : List Char) :
    List.isPrefixOf ('-' :: ' ' :: []) (a' ++ ' ' :: '-' :: ' ' :: tail) =
      List.isPrefixOf ('-' :: ' ' :: []) (a' ++ [' ']) := by
  rcases a' with _ | ⟨d, _ | ⟨e, r⟩⟩ <;> simp [List.isPrefixOf]

theorem splitDashAux_through (a : List Char) :
    ∀ (tail : List Char) (acc : List Char), noSepIn (a ++ [' ']) = true →
      splitDashAux acc (a ++ ' ' :: '-' :: ' ' :: tail) =
        (acc.reverse ++ a) :: splitDashAux [] tail := by
  induction a with
  | nil => intro tail acc _; simp [splitDashAux]
  | cons c a' ih =>
    intro tail acc ha
    simp only [List.cons_append, noSepIn, Bool.and_eq_true, Bool.not_eq_eq_eq_not,
      Bool.not_true] at ha
    have hstep : (decide (c = ' ') &&
        List.isPrefixOf ('-' :: ' ' :: []) (a' ++ ' ' :: '-' :: ' ' :: tail)) = false := by
      rw [sep_prefix_indep]
      exact ha.1
    rw [List.cons_append, splitDashAux_cons acc c _ hstep, ih tail (c :: acc) ha.2]
    simp

theorem splitDash_two_seps (a b rest : List Char)
    (ha : noSepIn (a ++ [' ']) = true) (hb : noSepIn (b ++ [' ']) = true) :
    splitDash (a ++ ' ' :: '-' :: ' ' :: (b ++ ' ' :: '-' :: ' ' :: rest)) =
      a :: b :: splitDashAux [] rest := by
  rw [splitDash, splitDashAux_through a _ [] ha]
  rw [splitDashAux_through b _ [] hb]
  simp

theorem hard_start_trace_no_rollback (env : HSEnv) (d u : String) :
    ∀ c ∈ (hard_start env d u).2, c.rollsBackPlaylist = false := by
  intro c hc
  cases hst : env.startFails with
  | some e =>
    simp [hard_start, hst] at hc
    rcases hc with rfl | rfl | rfl <;> rfl
  | none =>
    cases hpb : env.playbackRead with
    | error e =>
      simp [hard_start, hst, hpb] at hc
      rcases hc with rfl | rfl | rfl | rfl <;> rfl
    | ok pb =>
      simp only [hard_start, hst, hpb] at hc
      split at hc <;> simp at hc <;>
        rcases hc with rfl | rfl | rfl | rfl | rfl <;> rfl

theorem eda_trace_no_rollback (snaps : List (List Device)) (d : String) :
    ∀ c ∈ (ensure_device_active snaps d).2, c.rollsBackPlaylist = false := by
  induction snaps with
  | nil => simp [ensure_device_active]
  | cons s rest ih =>
    intro c hc
    simp only [ensure_device_active] at hc
    split at hc
    · simp at hc
      rcases hc with rfl | rfl <;> rfl
    · simp at hc
      rcases hc with rfl | hc
      · rfl
      · exact ih c hc

theorem fill_trace_no_rollback (pid : String) (uris : List String) (r k : Nat) :
    ∀ c ∈ fill_playlist_and_wait pid uris r k, c.rollsBackPlaylist = false := by
  intro c hc
  simp only [fill_playlist_and_wait] at hc
  rcases List.mem_append.1 hc with h | h
  · obtain ⟨b, _, rfl⟩ := List.mem_map.1 h
    rfl
  · rw [List.eq_of_mem_replicate h]
    rfl

theorem bestEffort_trace_no_rollback (env : LoopEnv) (d : String) :
    ∀ c ∈ bestEffortTail env d, c.rollsBackPlaylist = false := by
  intro c hc
  cases hfr : env.finalRead with
  | error e =>
    simp [bestEffortTail, hfr] at hc
    subst hc; rfl
  | ok flags =>
    simp only [bestEffortTail, hfr] at hc
    rcases List.mem_append.1 hc with h | h
    · rcases List.mem_append.1 h with h1 | h1
      · simp at h1; subst h1; rfl
      · split at h1 <;> simp at h1; subst h1; rfl
    · split at h <;> simp at h; subst h; rfl

theorem start_loop_trace_no_rollback (env : LoopEnv) (uris : List String) (d : String) :
    ∀ c ∈ (start_loop_and_schedule_stop env uris d).2, c.rollsBackPlaylist = false := by
  intro c hc
  have hseg : ∀ x ∈ (create_session_playlist env.userId env.ts env.pid).2 ++
      fill_playlist_and_wait (create_session_playlist env.userId env.ts env.pid).1 uris 200
        env.pollCount ++ (ensure_device_active env.snaps d).2,
      RCall.rollsBackPlaylist x = false := by
    intro x hx
    rcases List.mem_append.1 hx with h | h
    · rcases List.mem_append.1 h with h1 | h1
      · simp [create_session_playlist] at h1
        rcases h1 with rfl | rfl <;> rfl
      · exact fill_trace_no_rollback _ _ _ _ x h1
    · exact eda_trace_no_rollback _ _ x h
  have hact : ∀ e1 e2 u, ∀ x ∈ (activate e1 e2 d u).2.2, RCall.rollsBackPlaylist x = false := by
    intro e1 e2 u x hx
    simp only [activate] at hx
    split at hx
    · exact hard_start_trace_no_rollback _ _ _ x hx
    · exact hard_start_trace_no_rollback _ _ _ x hx
    · rcases List.mem_append.1 hx with h | h
      · exact hard_start_trace_no_rollback _ _ _ x h
      · exact hard_start_trace_no_rollback _ _ _ x h
  simp only [start_loop_and_schedule_stop] at hc
  split at hc
  · exact hseg c (by simpa [List.append_assoc] using hc)
  · split at hc
    · simp only [Prod.snd] at hc
      rcases List.mem_append.1 hc with h | h
      · exact hseg c (by simpa [List.append_assoc] using h)
      · exact hact _ _ _ c h
    · simp only [Prod.snd] at hc
      rcases List.mem_append.1 hc with h | h
      · exact hseg c (by simpa [List.append_assoc] using h)
      · exact hact _ _ _ c h
    · simp only [Prod.snd] at hc
      rcases List.mem_append.1 hc with h | h
      · rcases List.mem_append.1 h with h1 | h1
        · exact hseg c (by simpa [List.append_assoc] using h1)
        · exact hact _ _ _ c h1
      · exact bestEffort_trace_no_rollback _ _ c h

theorem start_loop_trace_has_create (env : LoopEnv) (uris : List String) (d : String) :
    RCall.createPlaylist env.userId ("Loop Agent (" ++ env.ts ++ ")") ∈
      (start_loop_and_schedule_stop env uris d).2 := by
  simp only [start_loop_and_schedule_stop, create_session_playlist]
  split
  · simp
  · split <;> simp




theorem clockTarget_now_le (now : Nat) :
    clockTarget now (nowHour now) (nowMinute now) ≤ now := by
  simp only [clockTarget, dayFloor, nowHour, nowMinute, usPerDay, usPerHour, usPerMin]
  omega

theorem now_lt_dayFloor_add (now : Nat) : now < dayFloor now + usPerDay := by
  simp only [dayFloor, usPerDay, usPerHour, usPerMin]
  omega

/-! ## Claim theorems -/

/-- **C1** (status: code bug in the source). The spec says an hour unit
(`hour`, `hours` or `hr`) yields `now + qty` hours. In the source the
regex accepts all three spellings but the branch is
`unit.startswith("hr")`, which is `False` for `"hour"` and `"hours"`, so
`"5 hours"` resolves to *now + 5 minutes*; only `"5 hr"` yields hours.
This theorem evaluates the embedded resolver at the failing inputs. -/
theorem C1_hour_unit_resolves_as_minutes :
    resolve_until_today (fun _ => none) 0 (some "5 hours") = some (5 * usPerMin) ∧
    resolve_until_today (fun _ => none) 0 (some "1 hour") = some (1 * usPerMin) ∧
    resolve_until_today (fun _ => none) 0 (some "5 hr") = some (5 * usPerHour) ∧
    resolve_until_today (fun _ => none) 0 (some "5 min") = some (5 * usPerMin) ∧
    resolve_until_today (fun _ => none) 0 (some "5") = some (5 * usPerMin) ∧
    5 * usPerMin ≠ 5 * usPerHour := by
  refine ⟨by decide, by decide, by decide, by decide, by decide, by decide⟩

/-- **C5** (counterexample). The claim says a query with several ` - `
separators splits on the first one only, the artist being the *entire*
remaining text. The source splits on every occurrence and keeps only the
first two segments, so `"A - B - C"` yields artist `"B"`, not
`"B - C"`. -/
theorem C5_counterexample :
    splitQuery "A - B - C" = ("A", "B") ∧ ("B" : String) ≠ "B - C" := by
  refine ⟨by decide, by decide⟩

theorem toList_asString (l : List Char) : (List.asString l).toList = l := rfl

theorem data_asString (l : List Char) : (List.asString l).data = l := rfl

/-- **C2** (counterexample). The claim says clause extraction is
order-independent and that `play "T" on D till E` yields device hint `D`.
But `\bon (.+)$` captures to the end of the string, so with the on-clause
first the device hint swallows the till-clause: here it is
`"iPhone till 10 minutes"`, not `"iPhone"`. -/
theorem C2_counterexample :
    parse_cmd "play \"T\" on iPhone till 10 minutes" =
      .ok (["T"], some "10 minutes", some "iPhone till 10 minutes") ∧
    ("iPhone till 10 minutes" : String) ≠ "iPhone" := by
  refine ⟨by rfl, by decide⟩

/-- **C2** (amended). For well-formed commands in the documented order
`play "T" till E on D` (title non-empty and quote-free; stop expression
and device newline-free and free of embedded keyword matches, as the
decidable `scanFree` side conditions state), `parse_cmd` extracts stop
expression `E` and device `D` (both trimmed). With the clauses in the
opposite order, `play "T" on D till E`, the stop expression is still `E`
but the device hint becomes the entire remainder `D till E`: the two
regex scans are leftmost matches and the device capture runs to the end
of the string, so extraction is *not* independent of clause order. -/
theorem C2_clause_order (T E D : List Char)
    (hT1 : T ≠ []) (hT2 : '"' ∉ T)
    (hTtill : scanFree tillPat true (some '"') T ['"'] = true)
    (hTon : scanFree onPat true (some '"') T ['"'] = true)
    (hE1 : E ≠ []) (hE2 : '"' ∉ E) (hE3 : '\n' ∉ E)
    (hEstop : scanFree stopPat false none E.tail (' ' :: 'o' :: 'n' :: []) = true)
    (hEon : scanFree onPat true (some ' ') E (' ' :: 'o' :: []) = true)
    (hD1 : D ≠ []) (hD2 : '"' ∉ D) (hD3 : '\n' ∉ D)
    (hDtill : scanFree tillPat true (some ' ') D (' ' :: 't' :: 'i' :: 'l' :: []) = true) :
    parse_cmd (List.asString (cmdTillOn T E D)) =
      .ok ([T.asString], some (pyStrip E).asString, some (pyStrip D).asString) ∧
    parse_cmd (List.asString (cmdOnTill T E D)) =
      .ok ([T.asString], some (pyStrip E).asString,
        some (pyStrip (D ++ ' ' :: 't' :: 'i' :: 'l' :: 'l' :: ' ' :: E)).asString) := by
  constructor
  · have htitle : findQuoted (cmdTillOn T E D) = [T] :=
      findQuoted_cmd T (' ' :: 't' :: 'i' :: 'l' :: 'l' :: ' ' ::
        (E ++ ' ' :: 'o' :: 'n' :: ' ' :: D)) hT1 hT2
        (by simp [List.mem_append, hE2, hD2])
    have htill := searchTill_cmdTillOn T E D hTtill hE1 hE3 hEstop
    have hon := searchOn_cmdTillOn T E D hTon hEon hD1 hD3
    simp [parse_cmd, toList_asString, data_asString, htitle, htill, hon]
  · have htitle : findQuoted (cmdOnTill T E D) = [T] :=
      findQuoted_cmd T (' ' :: 'o' :: 'n' :: ' ' ::
        (D ++ ' ' :: 't' :: 'i' :: 'l' :: 'l' :: ' ' :: E)) hT1 hT2
        (by simp [List.mem_append, hE2, hD2])
    have htill := searchTill_cmdOnTill T E D hTtill hE1 hE3 hEstop hDtill
    have hon := searchOn_cmdOnTill T E D hTon hE3 hD3
    simp [parse_cmd, toList_asString, data_asString, htitle, htill, hon]

/-- **C2** witness: `play "S" till 5 on K` parses to stop `5` / device
`K`; `play "S" on K till 5` parses to stop `5` / device `K till 5`. -/
theorem C2_witness :
    parse_cmd (List.asString (cmdTillOn ['S'] ['5'] ['K'])) =
      .ok ([List.asString ['S']], some (pyStrip ['5']).asString,
        some (pyStrip ['K']).asString) ∧
    parse_cmd (List.asString (cmdOnTill ['S'] ['5'] ['K'])) =
      .ok ([List.asString ['S']], some (pyStrip ['5']).asString,
        some (pyStrip (['K'] ++ ' ' :: 't' :: 'i' :: 'l' :: 'l' :: ' ' :: ['5'])).asString) :=
  C2_clause_order ['S'] ['5'] ['K'] (by decide) (by decide) (by decide) (by decide)
    (by decide) (by decide) (by decide) (by decide) (by decide) (by decide) (by decide)
    (by decide) (by decide)

/-- **C5** (amended). `search_track` splits the query on *every*
occurrence of ` - ` and keeps only the first two segments: for a query
of the form `a - b - rest` (no separator inside `a` or `b`, including
straddles), the title is `a` stripped and the artist is `b` stripped —
the text after the second separator is discarded, not appended to the
artist. -/
theorem C5_split_keeps_first_two_segments (a b rest : List Char)
    (ha : noSepIn (a ++ [' ']) = true) (hb : noSepIn (b ++ [' ']) = true) :
    splitQuery (List.asString (a ++ ' ' :: '-' :: ' ' :: (b ++ ' ' :: '-' :: ' ' :: rest))) =
      ((pyStrip a).asString, (pyStrip b).asString) := by
  simp only [splitQuery, toList_asString]
  rw [splitDash_two_seps a b rest ha hb]
  simp

/-- **C5** witness: `"A - B - C"` yields title `"A"`, artist `"B"`. -/
theorem C5_witness :
    splitQuery (List.asString
        (['A'] ++ ' ' :: '-' :: ' ' :: (['B'] ++ ' ' :: '-' :: ' ' :: ['C']))) =
      ((pyStrip ['A']).asString, (pyStrip ['B']).asString) :=
  C5_split_keeps_first_two_segments ['A'] ['B'] ['C'] (by decide) (by decide)

/-- **C6**. In `hard_start`: the pause and the forced transfer swallow
their own failures (the result does not depend on them), an exception
while reading or verifying playback is a verification failure (`False`),
the `start_playback` failure propagates; and in the caller a failed
verification triggers exactly one retry of the whole sequence before the
`PlaybackStartFailed` error is raised. -/
theorem C6_hard_start_failure_policy (d u : String) :
    (∀ env e, env.startFails = some e → (hard_start env d u).1 = Except.error e) ∧
    (∀ env, env.startFails = none → ∃ b, (hard_start env d u).1 = Except.ok b) ∧
    (∀ env e, env.startFails = none → env.playbackRead = Except.error e →
      (hard_start env d u).1 = Except.ok false) ∧
    (∀ env b1 b2 b3,
      (hard_start { env with pauseFails := b1, transferFails := b2, seekFails := b3 } d u).1 =
        (hard_start env d u).1) ∧
    (∀ e1 e2, (hard_start e1 d u).1 = Except.ok true →
      (activate e1 e2 d u).1 = Except.ok true ∧ (activate e1 e2 d u).2.1 = 1) ∧
    (∀ e1 e2, (hard_start e1 d u).1 = Except.ok false → (activate e1 e2 d u).2.1 = 2) ∧
    (∀ env uris, (ensure_device_active env.snaps d).1 = true →
      (hard_start env.hs1 d ("spotify:playlist:" ++ env.pid)).1 = Except.ok false →
      (hard_start env.hs2 d ("spotify:playlist:" ++ env.pid)).1 = Except.ok false →
      (start_loop_and_schedule_stop env uris d).1 =
        Except.error "Could not switch playback to the session playlist.") := by
  refine ⟨?_, ?_, ?_, ?_, ?_, ?_, ?_⟩
  · intro env e h; simp [hard_start, h]
  · intro env h
    simp only [hard_start, h]
    cases hp : env.playbackRead with
    | error e => exact ⟨false, by simp [hp]⟩
    | ok pb =>
      refine ⟨decide ((pb.bind PB.contextUri) = some u), ?_⟩
      simp only [hp]
      split <;> rfl
  · intro env e h hr; simp [hard_start, h, hr]
  · intro env b1 b2 b3; rfl
  · intro e1 e2 h; simp [activate, h]
  · intro e1 e2 h
    simp [activate, h]
  · intro env uris heda h1 h2
    simp [start_loop_and_schedule_stop, activate, create_session_playlist, heda, h1, h2]

/-- **C6** witness: a start error propagates, a read exception verifies
`False`, and two failed verifications consume exactly two attempts; a
device list where the target is visible plus two failed verifications
yields the `PlaybackStartFailed` error from `start_loop_and_schedule_stop`. -/
theorem C6_witness :
    (hard_start ⟨false, false, some "boom", Except.ok none, false⟩ "dev" "ctx").1 =
        Except.error "boom" ∧
    (hard_start ⟨false, false, none, Except.error "x", false⟩ "dev" "ctx").1 =
        Except.ok false ∧
    (activate ⟨false, false, none, Except.error "x", false⟩
        ⟨false, false, none, Except.error "x", false⟩ "dev" "ctx").2.1 = 2 ∧
    (start_loop_and_schedule_stop
        ⟨"u", "t", "p", 0, [[⟨"dev", "Dev", false⟩]],
         ⟨false, false, none, Except.error "x", false⟩,
         ⟨false, false, none, Except.error "x", false⟩,
         Except.ok (false, false), false, false⟩ ["trackuri"] "dev").1 =
      Except.error "Could not switch playback to the session playlist." := by
  refine ⟨(C6_hard_start_failure_policy "dev" "ctx").1 _ "boom" rfl,
    (C6_hard_start_failure_policy "dev" "ctx").2.2.1 _ "x" rfl rfl,
    (C6_hard_start_failure_policy "dev" "ctx").2.2.2.2.2.1 _ _
      ((C6_hard_start_failure_policy "dev" "ctx").2.2.1 _ "x" rfl rfl), ?_⟩
  exact (C6_hard_start_failure_policy "dev" "ctx").2.2.2.2.2.2 _ ["trackuri"] rfl rfl rfl

/-- **C3**. When some track query has zero catalog matches, the `/play`
request fails with the `Could not find` error naming the first such
query, the trace contains exactly one lookup per query up to and
including the failing one (no further lookups), and no playlist-mutating
remote call occurs in the whole request. -/
theorem C3_track_resolution_all_or_nothing
    (dtp : String → Option (Nat × Nat)) (now : Nat) (catalog : String → Option String)
    (defaultName : Option String) (devices : List Device) (env : LoopEnv)
    (command : String) (pre post : List String) (t : String)
    (untilTxt devHint : Option String)
    (hparse : parse_cmd command = .ok (pre ++ t :: post, untilTxt, devHint))
    (hres : (resolve_until_today dtp now untilTxt).isSome)
    (hpre : ∀ q ∈ pre, (search_track catalog q).isSome)
    (ht : search_track catalog t = none) :
    play_run dtp now catalog defaultName devices env command =
      (.error (notFoundMsg t),
        (pre ++ [t]).map (fun q => RCall.searchTrack (searchQueryOf q))) ∧
    ∀ c ∈ (play_run dtp now catalog defaultName devices env command).2,
      c.mutatesPlaylist = false := by
  obtain ⟨endAt, hend⟩ : ∃ v, resolve_until_today dtp now untilTxt = some v := by
    cases h : resolve_until_today dtp now untilTxt
    · rw [h] at hres; simp at hres
    · exact ⟨_, rfl⟩
  have hst := search_tracks_first_failure catalog pre post t hpre ht
  have hrun : play_run dtp now catalog defaultName devices env command =
      (.error (notFoundMsg t),
        (pre ++ [t]).map (fun q => RCall.searchTrack (searchQueryOf q))) := by
    simp [play_run, hparse, hend, hst]
  refine ⟨hrun, ?_⟩
  rw [hrun]
  intro c hc
  obtain ⟨q, _, rfl⟩ := List.mem_map.1 hc
  rfl

/-- **C3** witness: with a catalog that knows `"A"` but not `"BB"`, the
command `play "A" "BB" till 5` fails naming `BB`, after exactly the two
lookups and with no playlist-mutating call. -/
theorem C3_witness :
    play_run (fun _ => none) 0
        (fun q => if q = "track:\"A\"" then some "uriA" else none) none []
        ⟨"u", "t", "p", 0, [], ⟨false, false, none, Except.error "x", false⟩,
         ⟨false, false, none, Except.error "x", false⟩,
         Except.ok (false, false), false, false⟩
        "play \"A\" \"BB\" till 5" =
      (.error (notFoundMsg "BB"),
        (["A"] ++ ["BB"]).map (fun q => RCall.searchTrack (searchQueryOf q))) ∧
    ∀ c ∈ (play_run (fun _ => none) 0
        (fun q => if q = "track:\"A\"" then some "uriA" else none) none []
        ⟨"u", "t", "p", 0, [], ⟨false, false, none, Except.error "x", false⟩,
         ⟨false, false, none, Except.error "x", false⟩,
         Except.ok (false, false), false, false⟩
        "play \"A\" \"BB\" till 5").2, c.mutatesPlaylist = false :=
  C3_track_resolution_all_or_nothing (fun _ => none) 0
    (fun q => if q = "track:\"A\"" then some "uriA" else none) none []
    ⟨"u", "t", "p", 0, [], ⟨false, false, none, Except.error "x", false⟩,
     ⟨false, false, none, Except.error "x", false⟩,
     Except.ok (false, false), false, false⟩
    "play \"A\" \"BB\" till 5" ["A"] [] "BB" (some "5") none
    (by rfl) (by rfl) (by decide) (by rfl)

/-- **C4** (counterexample). The expression `"0"` is accepted by the
resolver (the duration regex matches any `\d+`) and resolves to exactly
`now`, not strictly after it. -/
theorem C4_counterexample :
    resolve_until_today (fun _ => none) 1000 (some "0") = some 1000 ∧ ¬ (1000 < 1000) :=
  ⟨by decide, by decide⟩

/-- **C4** (amended). Every accepted stop-time expression and the
absent-expression default resolve strictly after `now`, except a
zero-quantity duration, which resolves to exactly `now`. A clock-time
expression is combined with today's date and advanced by exactly one
calendar day when the combination is not strictly after `now`; in
particular a clock time equal to the current hour and minute resolves to
that minute tomorrow. -/
theorem C4_deadline_strictly_after (dtp : String → Option (Nat × Nat)) (now : Nat)
    (ut : Option String) (r : Nat)
    (hr : resolve_until_today dtp now ut = some r) :
    (zeroDuration ut = true → r = now) ∧
    (zeroDuration ut = false → now < r) ∧
    (∀ txt h m, ut = some txt → txt ≠ "" → durMatch txt = none → dtp txt = some (h, m) →
      r = (if clockTarget now h m ≤ now then clockTarget now h m + usPerDay
           else clockTarget now h m) ∧
      (h = nowHour now → m = nowMinute now → r = clockTarget now h m + usPerDay)) := by
  cases ut with
  | none =>
    have hval : resolve_until_today dtp now none = some (now + 2 * usPerHour) := by
      simp [resolve_until_today, truthyOpt]
    rw [hval, Option.some.injEq] at hr
    refine ⟨by simp [zeroDuration], ?_, by intro txt h m heq; cases heq⟩
    intro _
    rw [← hr]
    simp only [usPerHour, usPerMin]
    omega
  | some txt =>
    by_cases hemp : txt = ""
    · subst hemp
      have hval : resolve_until_today dtp now (some "") = some (now + 2 * usPerHour) := by
        simp [resolve_until_today, truthyOpt]
      rw [hval, Option.some.injEq] at hr
      refine ⟨?_, ?_, by intro txt' h m heq hne; cases heq; exact absurd rfl hne⟩
      · intro hz
        simp [zeroDuration, durMatch] at hz
      · intro _
        rw [← hr]
        simp only [usPerHour, usPerMin]
        omega
    · have htr : truthyOpt (some txt) = true := by simp [truthyOpt, hemp]
      cases hdm : durMatch txt with
      | some p =>
        obtain ⟨qty, ounit⟩ := p
        have hval : resolve_until_today dtp now (some txt) =
            some (now + (if List.isPrefixOf ('h':: 'r'::[])
                (ounit.getD ('m':: 'i':: 'n':: 'u':: 't':: 'e':: 's'::[])) then qty * usPerHour
              else qty * usPerMin)) := by
          simp [resolve_until_today, htr, hdm]
        rw [hval, Option.some.injEq] at hr
        have hz : zeroDuration (some txt) = (decide (qty = 0)) := by
          simp only [zeroDuration, hdm]
          cases qty <;> simp
        refine ⟨?_, ?_, by intro txt' h m heq hne hnone; cases heq; rw [hdm] at hnone; cases hnone⟩
        · intro h0
          rw [hz] at h0
          have : qty = 0 := by simpa using h0
          subst this
          rw [← hr]
          split <;> simp
        · intro h0
          rw [hz] at h0
          have hq : qty ≠ 0 := by simpa using h0
          rw [← hr]
          have h1 : 0 < usPerMin := by decide
          have h2 : 0 < usPerHour := by decide
          split
          · have : 0 < qty * usPerHour := Nat.mul_pos (Nat.pos_of_ne_zero hq) h2
            omega
          · have : 0 < qty * usPerMin := Nat.mul_pos (Nat.pos_of_ne_zero hq) h1
            omega
      | none =>
        cases hdtp : dtp txt with
        | none =>
          have hval : resolve_until_today dtp now (some txt) = none := by
            simp [resolve_until_today, htr, hdm, hdtp]
          rw [hval] at hr
          cases hr
        | some hm =>
          obtain ⟨h, m⟩ := hm
          have hval : resolve_until_today dtp now (some txt) =
              some (if clockTarget now h m ≤ now then clockTarget now h m + usPerDay
                else clockTarget now h m) := by
            simp [resolve_until_today, htr, hdm, hdtp]
          rw [hval, Option.some.injEq] at hr
          have hz : zeroDuration (some txt) = false := by simp [zeroDuration, hdm]
          have hgt : now < r := by
            rw [← hr]
            split
            · have h1 := now_lt_dayFloor_add now
              have h2 : dayFloor now ≤ clockTarget now h m := by
                simp only [clockTarget]
                omega
              omega
            · omega
          refine ⟨(by intro hfalse; rw [hz] at hfalse; cases hfalse), fun _ => hgt, ?_⟩
          intro txt' h' m' heq hne hnone hdtp'
          cases heq
          rw [hdtp] at hdtp'
          obtain ⟨rfl, rfl⟩ : h = h' ∧ m = m' := by
            injection hdtp' with hh
            exact ⟨congrArg Prod.fst hh, congrArg Prod.snd hh⟩
          refine ⟨hr.symm, ?_⟩
          intro hh hm
          subst hh hm
          rw [← hr, if_pos (clockTarget_now_le now)]

/-- **C4** witness: a clock-time expression parsed as 00:00 at
`now = 5` is not after `now` today, so it resolves to midnight
tomorrow. -/
theorem C4_witness :
    ((zeroDuration (some "x") = true → (86400000000 : Nat) = 5) ∧
     (zeroDuration (some "x") = false → (5 : Nat) < 86400000000) ∧
     (∀ txt h m, (some "x" : Option String) = some txt → txt ≠ "" →
        durMatch txt = none → (fun (_ : String) => some ((0 : Nat), (0 : Nat))) txt = some (h, m) →
        (86400000000 : Nat) = (if clockTarget 5 h m ≤ 5 then clockTarget 5 h m + usPerDay
             else clockTarget 5 h m) ∧
        (h = nowHour 5 → m = nowMinute 5 → (86400000000 : Nat) = clockTarget 5 h m + usPerDay))) :=
  C4_deadline_strictly_after (fun _ => some (0, 0)) 5 (some "x") 86400000000 (by decide)

/-- **C7**. Device selection equals the specification's priority policy —
exact case-insensitive match, then case-insensitive substring match, then
the active device, then the first listed device — applied to the
effective preferred name, and an empty device list yields no device
rather than an error. Both sides are functions of the device list and
hint, so selection is deterministic. -/
theorem C7_device_selection_priority (defaultName preferredArg : Option String)
    (devices : List Device) :
    find_device defaultName preferredArg devices =
      selectDeviceSpec (effectivePreference defaultName preferredArg) devices ∧
    find_device defaultName preferredArg [] = none := by
  exact ⟨find_device_eq_spec defaultName preferredArg devices, by simp [find_device]⟩

/-- **C9**. For every non-empty track list, `fill_playlist_and_wait`
(at its default multiplier, as called) sends insertion batches whose
concatenation is exactly 200 consecutive full cycles of the input list
in input order, totalling `200 * len(uris)` inserted items, each batch
holding at most 100 items; the trace is those batches followed by the
consistency polls. -/
theorem C9_fill_playlist_200_cycles (uris : List String) (h : uris ≠ []) :
    (fillBatches uris 200).join = (List.replicate 200 uris).join ∧
    (∀ b ∈ fillBatches uris 200, b.length ≤ 100) ∧
    ((fillBatches uris 200).map List.length).sum = 200 * uris.length ∧
    ∀ pid k, fill_playlist_and_wait pid uris 200 k =
      (fillBatches uris 200).map (RCall.addItems pid) ++
        List.replicate k (RCall.readPlaylist pid) := by
  refine ⟨fillBatches_join uris 200, fillBatches_sizes uris 200, ?_, fun _ _ => rfl⟩
  have h1 : ((fillBatches uris 200).join).length = 200 * uris.length := by
    rw [fillBatches_join]
    exact join_replicate_length 200 uris
  rw [← h1]
  simp [List.length_join]

/-- **C9** witness. -/
theorem C9_witness :
    (fillBatches ["a"] 200).join = (List.replicate 200 ["a"]).join ∧
    (∀ b ∈ fillBatches ["a"] 200, b.length ≤ 100) ∧
    ((fillBatches ["a"] 200).map List.length).sum = 200 * (["a"] : List String).length ∧
    ∀ pid k, fill_playlist_and_wait pid ["a"] 200 k =
      (fillBatches ["a"] 200).map (RCall.addItems pid) ++
        List.replicate k (RCall.readPlaylist pid) :=
  C9_fill_playlist_200_cycles ["a"] (by decide)

/-- **C8**. If `start_loop_and_schedule_stop` fails after creating the
session playlist (device never visible, start failure, or both
verifications failing), the error is surfaced, the playlist-creation
call is in the trace, and no call in the trace deletes from, unfollows,
or otherwise rolls back a playlist. -/
theorem C8_created_playlist_left_in_place (env : LoopEnv) (uris : List String)
    (d e : String)
    (herr : (start_loop_and_schedule_stop env uris d).1 = Except.error e) :
    RCall.createPlaylist env.userId ("Loop Agent (" ++ env.ts ++ ")") ∈
      (start_loop_and_schedule_stop env uris d).2 ∧
    ∀ c ∈ (start_loop_and_schedule_stop env uris d).2, c.rollsBackPlaylist = false :=
  ⟨start_loop_trace_has_create env uris d, start_loop_trace_no_rollback env uris d⟩

/-- **C8** witness: the device never becomes visible, the request fails,
the created playlist is in the trace and nothing rolls it back. -/
theorem C8_witness :
    RCall.createPlaylist "u" ("Loop Agent (" ++ "t" ++ ")") ∈
      (start_loop_and_schedule_stop
        ⟨"u", "t", "p", 0, [], ⟨false, false, none, Except.error "x", false⟩,
         ⟨false, false, none, Except.error "x", false⟩,
         Except.ok (false, false), false, false⟩ ["trackuri"] "dev").2 ∧
    ∀ c ∈ (start_loop_and_schedule_stop
        ⟨"u", "t", "p", 0, [], ⟨false, false, none, Except.error "x", false⟩,
         ⟨false, false, none, Except.error "x", false⟩,
         Except.ok (false, false), false, false⟩ ["trackuri"] "dev").2,
      c.rollsBackPlaylist = false :=
  C8_created_playlist_left_in_place _ ["trackuri"] "dev"
    "Target device not active/visible on Spotify Connect." (by rfl)

/-- **C10**. With no device hint in the command, `find_device` uses the
`DEFAULT_DEVICE_NAME` environment value as the preferred name: selection
behaves exactly as if that value had been the hint, and (when the value
is non-empty) the exact/substring tiers apply to it. -/
theorem C10_default_device_name_env (envName : String) (devices : List Device) :
    find_device (some envName) none devices = find_device none (some envName) devices ∧
    (envName ≠ "" →
      find_device (some envName) none devices = selectDeviceSpec (some envName) devices) := by
  constructor
  · have h1 := find_device_eq_spec (some envName) none devices
    have h2 := find_device_eq_spec none (some envName) devices
    rw [h1, h2]
    by_cases he : envName = "" <;>
      simp [effectivePreference, pyOr, truthyOpt, he]
  · intro he
    rw [find_device_eq_spec]
    simp [effectivePreference, pyOr, truthyOpt, he]

/-- **C10** witness: with the environment default `"iPhone"` and no hint,
the substring tier picks the device named `"My iPhone 12"` over the
active device and the first device. -/
theorem C10_witness :
    find_device (some "iPhone") none
        [⟨"d1", "Echo", true⟩, ⟨"d2", "My iPhone 12", false⟩] =
      find_device none (some "iPhone")
        [⟨"d1", "Echo", true⟩, ⟨"d2", "My iPhone 12", false⟩] ∧
    find_device (some "iPhone") none
        [⟨"d1", "Echo", true⟩, ⟨"d2", "My iPhone 12", false⟩] =
      selectDeviceSpec (some "iPhone")
        [⟨"d1", "Echo", true⟩, ⟨"d2", "My iPhone 12", false⟩] := by
  exact ⟨(C10_default_device_name_env "iPhone" _).1,
    (C10_default_device_name_env "iPhone" _).2 (by decide)⟩

end LoopAgent
